import Mathlib

set_option maxRecDepth 40000

/-!
Verification of the feature-extraction, windowing and calibration core of the
digital-health-app repository (`ml/src/features.py` and `backend/app/main.py`).

Modelling conventions.
Python floats are modelled as exact rationals (`ℚ`); the decimal literals of the
source (`9.81`, `0.25`, `0.3`, `0.75`, `1e-6`, ...) become the corresponding exact
rationals.  In this exact arithmetic NaN and ±Infinity have no representative, so
`np.nan_to_num` is the identity on every vector the model produces.  `np.sqrt`
(reaching the model through `np.linalg.norm` and the population `std`) is modelled
by `ratSqrt`, an exact rational square root: it agrees with the mathematical square
root on every perfect-square rational, and every place where a theorem below
evaluates a square root numerically is such a perfect square.  A sample row of the
`(n, 3)` accelerometer arrays is a triple `(x, y, z) : ℚ × ℚ × ℚ`, and an array is
a `List` of rows.
-/

/-- One accelerometer sample row `(accel_x, accel_y, accel_z)`. -/
abbrev Sample := ℚ × ℚ × ℚ

/-- Fuel-driven Newton iteration used by `natSqrt`; stops as soon as the
iteration no longer decreases, which for a start value `x ≥ √n` yields `⌊√n⌋`. -/
def sqrtIter (n : ℕ) : ℕ → ℕ → ℕ
  | 0, x => x
  | fuel + 1, x =>
    let y := (x + n / x) / 2
    if y < x then sqrtIter n fuel y else x

/-- Integer square root by Newton iteration (structurally recursive so that the
kernel can evaluate it; exact on perfect squares). -/
def natSqrt (n : ℕ) : ℕ :=
  if n ≤ 1 then n else sqrtIter n n n

/-- Embeds `np.sqrt` on nonnegative rationals.  Exact whenever the argument is a
perfect square of a rational, which covers every numeric evaluation below. -/
def ratSqrt (q : ℚ) : ℚ :=
  (natSqrt q.num.toNat : ℚ) / (natSqrt q.den : ℚ)

/-- Embeds `a.mean()` for a 1-D numpy array (sum divided by length). -/
def npMean (l : List ℚ) : ℚ := l.sum / l.length

/-- Embeds the population variance `mean((a - a.mean())**2)` underlying
`a.std()`. -/
def npVar (l : List ℚ) : ℚ := npMean (l.map (fun a => (a - npMean l) ^ 2))

/-- Embeds `a.std()` (numpy population standard deviation, `ddof=0`). -/
def npStd (l : List ℚ) : ℚ := ratSqrt (npVar l)

/-- Embeds `a.min()` for a 1-D numpy array. -/
def npMin : List ℚ → ℚ
  | [] => 0
  | x :: xs => xs.foldl min x

/-- Embeds `a.max()` for a 1-D numpy array. -/
def npMax : List ℚ → ℚ
  | [] => 0
  | x :: xs => xs.foldl max x

/-- The ascending sort performed internally by `np.percentile`. -/
def sortQ (l : List ℚ) : List ℚ := List.insertionSort (fun a b => a ≤ b) l

/-- Embeds `np.percentile(a, q)` with the default linear interpolation between
closest ranks: position `(n-1)*q/100` into the sorted data, interpolating
linearly between the two neighbouring order statistics. -/
def percentile (l : List ℚ) (q : ℚ) : ℚ :=
  let s := sortQ l
  let n := s.length
  let pos := ((n : ℚ) - 1) * q / 100
  let i := (⌊pos⌋).toNat
  let frac := pos - (⌊pos⌋ : ℚ)
  s.getD i 0 + frac * (s.getD (i + 1) (s.getD i 0) - s.getD i 0)

/-- Embeds `np.median(a)`, which coincides with the 50th percentile under linear
interpolation (middle element for odd length, average of the two middle elements
for even length). -/
def npMedian (l : List ℚ) : ℚ := percentile l 50

/-- Embeds `np.nan_to_num(v, nan=0.0, posinf=0.0, neginf=0.0)`.  In the exact
rational semantics every computed value is finite, so the elementwise
replacement leaves each element unchanged. -/
def nan_to_num (l : List ℚ) : List ℚ := l.map (fun v => v)

/-- Embeds the column selection `seg[:, k]` of an `(n, 3)` array for
`k ∈ {0, 1, 2}`. -/
def colAxis (k : ℕ) (seg : List Sample) : List ℚ :=
  seg.map (fun s => if k = 0 then s.1 else if k = 1 then s.2.1 else s.2.2)

/-- Embeds `np.linalg.norm(seg, axis=1)`: the per-row Euclidean magnitude
`sqrt(x² + y² + z²)`. -/
def mags (seg : List Sample) : List ℚ :=
  seg.map (fun s => ratSqrt (s.1 ^ 2 + s.2.1 ^ 2 + s.2.2 ^ 2))

/-- Embeds the Python slice `A[i:j]` (half-open, clamped). -/
def pySlice (l : List Sample) (i j : ℕ) : List Sample := (l.take j).drop i

/-- Embeds the label slice `L[i:j]`. -/
def pySliceLabels (l : List String) (i j : ℕ) : List String := (l.take j).drop i

/-- Embeds Python `int(q)` on a float: truncation toward zero. -/
def pyInt (q : ℚ) : ℤ := q.num.sign * (q.num.natAbs / q.den : ℕ)

/-- Embeds `range(0, stop, step)` for a positive `step` (the `stop` argument is
already clamped to `0` by the natural subtraction at the call site). -/
def pyRangeUp (stop step : ℕ) : List ℕ :=
  (List.range ((stop + step - 1) / step)).map (fun i => i * step)

/-- Embeds `window_indices(n, win, step)` from `ml/src/features.py` lines 7-15:
`for start in range(0, n - win + 1, step): yield start, start + win`.  The
natural subtraction `n + 1 - win` is `0` whenever `win > n`, exactly as Python's
`range` is empty when `n - win + 1 <= 0`. -/
def window_indices (n win step : ℕ) : List (ℕ × ℕ) :=
  (pyRangeUp (n + 1 - win) step).map (fun s => (s, s + win))

/-- Embeds `win = int(win_sec * fs)` from `ml/src/features.py` line 34. -/
def batch_win (fs win_sec : ℚ) : ℤ := pyInt (win_sec * fs)

/-- Embeds `step = int(win * (1 - overlap))` from `ml/src/features.py` line 35. -/
def batch_step (win : ℤ) (overlap : ℚ) : ℤ := pyInt ((win : ℚ) * (1 - overlap))

/-- Modelled from the spec: "Computes `win = round(fs * win_sec)`", rounding to
the nearest integer.  This is the spec's claimed window-length computation, to
be compared with the source's `batch_win`. -/
def spec_win (fs win_sec : ℚ) : ℤ := round (fs * win_sec)

/-- Modelled from the spec: "`step = round(win * (1 - overlap))`", rounding to
the nearest integer.  To be compared with the source's `batch_step`. -/
def spec_step (win : ℤ) (overlap : ℚ) : ℤ := round ((win : ℚ) * (1 - overlap))

/-- Embeds the six per-axis statistics appended for each axis inside
`extract_single_window` (`ml/src/features.py` lines 80-88): mean, population
std, min, max, median, and IQR as 75th minus 25th percentile. -/
def axisStats (a : List ℚ) : List ℚ :=
  [npMean a, npStd a, npMin a, npMax a, npMedian a,
    percentile a 75 - percentile a 25]

/-- Embeds `extract_single_window(seg)` from `ml/src/features.py` lines 73-95:
six statistics for each of the three axis columns, then mean and std of the
per-row magnitude vector, passed through `np.nan_to_num`. -/
def extract_single_window (seg : List Sample) : List ℚ :=
  nan_to_num
    (axisStats (colAxis 0 seg) ++ axisStats (colAxis 1 seg) ++
      axisStats (colAxis 2 seg) ++ [npMean (mags seg), npStd (mags seg)])

/-- Embeds the per-window feature computation inside the loop body of
`extract_features` (`ml/src/features.py` lines 50-66), transcribed
independently of `extract_single_window`: for `k in range(3)` the six
statistics of `seg[:, k]`, then mean and std of `np.linalg.norm(seg, axis=1)`,
then `np.nan_to_num`. -/
def extract_features_feats (seg : List Sample) : List ℚ :=
  nan_to_num
    ([npMean (colAxis 0 seg), npStd (colAxis 0 seg), npMin (colAxis 0 seg),
        npMax (colAxis 0 seg), npMedian (colAxis 0 seg),
        percentile (colAxis 0 seg) 75 - percentile (colAxis 0 seg) 25] ++
      [npMean (colAxis 1 seg), npStd (colAxis 1 seg), npMin (colAxis 1 seg),
        npMax (colAxis 1 seg), npMedian (colAxis 1 seg),
        percentile (colAxis 1 seg) 75 - percentile (colAxis 1 seg) 25] ++
      [npMean (colAxis 2 seg), npStd (colAxis 2 seg), npMin (colAxis 2 seg),
        npMax (colAxis 2 seg), npMedian (colAxis 2 seg),
        percentile (colAxis 2 seg) 75 - percentile (colAxis 2 seg) 25] ++
      [npMean (mags seg), npStd (mags seg)])

/-- Embeds the count of occurrences of `v` in `l` (the `return_counts=True`
counts of `np.unique`). -/
def countLbl (v : String) (l : List String) : ℕ :=
  (l.filter (fun y => decide (y = v))).length

/-- Embeds `np.unique(labs, return_counts=True)`: the distinct values in
ascending (lexicographic) order, paired with their multiplicities. -/
def np_unique (l : List String) : List String × List ℕ :=
  let vals := (List.insertionSort (fun a b => a ≤ b) l).dedup
  (vals, vals.map (fun v => countLbl v l))

/-- Embeds `np.argmax(cnts)`: the first index at which the maximum occurs
(numpy returns the first maximal index on ties). -/
def argmaxIdx : List ℕ → ℕ
  | [] => 0
  | x :: xs =>
    if xs.getD (argmaxIdx xs) 0 > x then argmaxIdx xs + 1 else 0

/-- Embeds the majority-label computation of `extract_features` lines 46-48:
`vals, cnts = np.unique(labs, return_counts=True); majority =
vals[np.argmax(cnts)]`. -/
def majority_label (labs : List String) : String :=
  (np_unique labs).1.getD (argmaxIdx (np_unique labs).2) ""

/-- Embeds `extract_features(frame, fs, win_sec, overlap)` from
`ml/src/features.py` lines 18-70.  The data-frame columns arrive as the sample
list `A` and the label column `L`; the window length and step are the `int`
conversions of lines 34-35, and for every index pair of `window_indices` the
loop body computes the feature vector of the sample slice and the majority
label of the label slice.  The `(X, y)` return value is the pair of the
per-window feature vectors and the per-window labels. -/
def extract_features (A : List Sample) (L : List String) (fs win_sec overlap : ℚ) :
    List (List ℚ) × List String :=
  let win := (batch_win fs win_sec).toNat
  let step := (batch_step (batch_win fs win_sec) overlap).toNat
  let idx := window_indices A.length win step
  (idx.map (fun p => extract_features_feats (pySlice A p.1 p.2)),
    idx.map (fun p => majority_label (pySliceLabels L p.1 p.2)))

/-- Embeds `np.clip(v, lo, hi)`. -/
def npClip (v lo hi : ℚ) : ℚ := min hi (max lo v)

/-- Scales every entry of every row by `c` (numpy `x *= c`). -/
def scaleSamples (c : ℚ) (l : List Sample) : List Sample :=
  l.map (fun s => (c * s.1, c * s.2.1, c * s.2.2))

/-- Adds `c` to the z entry of every row (numpy `x[:, 2] += c`). -/
def addZ (c : ℚ) (l : List Sample) : List Sample :=
  l.map (fun s => (s.1, s.2.1, s.2.2 + c))

/-- Embeds `np.abs(x)` flattened in row-major order, as consumed by
`np.percentile(np.abs(x), 95)`. -/
def flattenAbs (l : List Sample) : List ℚ :=
  (l.map (fun s => [|s.1|, |s.2.1|, |s.2.2|])).flatten

/-- Embeds `_calibrate_to_wisdm(seg)` from `backend/app/main.py` lines 59-103.
The float literals `9.81`, `0.25`, `0.75`, `0.3`, `1e-6` of the source appear as
the exact rationals `981/100`, `1/4`, `3/4`, `3/10`, `1/1000000`; the
`astype(float64, copy=True)` copy is value-identical so the model works on the
input list directly. -/
def calibrate_to_wisdm (seg : List Sample) : List Sample :=
  let x := seg
  let z_mean := npMean (colAxis 2 x)
  let abs95 := percentile (flattenAbs x) 95
  if (7 ≤ z_mean ∧ z_mean ≤ 12) ∨ abs95 > 5 then
    let mag := mags x
    if npStd mag < 1 / 4 then
      scaleSamples (npClip ((3 / 4) / max (npStd mag) (1 / 1000000)) 1 2) x
    else x
  else
    let x1 := scaleSamples (981 / 100) x
    let z_mean1 := npMean (colAxis 2 x1)
    let x2 := if -3 < z_mean1 ∧ z_mean1 < 3 then addZ 9 x1 else x1
    let mag_std := npStd (mags x2)
    if mag_std < 3 / 10 then
      scaleSamples (npClip (1 / max mag_std (1 / 1000000)) 1 3) x2
    else x2

/-- Embeds the Python slice `arr[-WIN:]` (for `WIN = 0` Python's `arr[-0:]` is
the whole array). -/
def pyLastN (w : ℕ) (l : List Sample) : List Sample :=
  if w = 0 then l else l.drop (l.length - w)

/-- Embeds the input-dependent part of the `/predict` route
(`backend/app/main.py` lines 107-122) up to and including feature extraction:
with fewer than `WIN` parsed samples it raises the HTTP 400 client error whose
detail carries the actual count `n` and the required count `WIN`; otherwise it
takes the most recent full window `arr[-WIN:]`, calibrates it and computes its
feature vector.  The downstream scaler/model/label-encoder application is the
opaque classifier boundary and is outside the embedding. -/
def predict (WIN : ℕ) (samples : List Sample) : Except (ℕ × ℕ) (List ℚ) :=
  if samples.length < WIN then
    .error (samples.length, WIN)
  else
    .ok (extract_single_window (calibrate_to_wisdm (pyLastN WIN samples)))

/-! ## Helper lemmas -/

/-- Truncation toward zero agrees with the floor on nonnegative rationals. -/
theorem pyInt_eq_floor (q : ℚ) (h : 0 ≤ q) : pyInt q = ⌊q⌋ := by
  have hnum : 0 ≤ q.num := Rat.num_nonneg.mpr h
  rcases hnum.eq_or_lt with h0 | hpos
  · have hq : q = 0 := Rat.num_eq_zero.mp h0.symm
    subst hq
    simp [pyInt]
  · have hsign : q.num.sign = 1 := Int.sign_eq_one_of_pos hpos
    have habs : (q.num.natAbs : ℤ) = q.num := Int.natAbs_of_nonneg hnum
    have hrepr : q = ((q.num.natAbs : ℚ) / (q.den : ℚ)) := by
      rw [show ((q.num.natAbs : ℚ)) = ((q.num : ℚ)) from by
        rw [Int.cast_natAbs]
        exact_mod_cast congrArg (fun z : ℤ => (z : ℚ)) (abs_of_nonneg hnum)]
      exact (Rat.num_div_den q).symm
    have hfloor : ⌊q⌋ = ((q.num.natAbs / q.den : ℕ) : ℤ) := by
      conv_lhs => rw [hrepr]
      rw [Rat.floor_natCast_div_natCast]
      exact (Int.natCast_div _ _).symm
    rw [pyInt, hsign, one_mul, hfloor]

/-- A value `s` lies in the embedded `range(0, stop, step)` exactly when it is a
multiple of `step` below `stop`. -/
theorem mem_pyRangeUp {stop step : ℕ} (hstep : 0 < step) (s : ℕ) :
    s ∈ pyRangeUp stop step ↔ (∃ i, s = i * step) ∧ s < stop := by
  simp only [pyRangeUp, List.mem_map, List.mem_range]
  constructor
  · rintro ⟨i, hi, rfl⟩
    have h1 : i + 1 ≤ (stop + step - 1) / step := hi
    rw [Nat.le_div_iff_mul_le hstep] at h1
    have h2 : (i + 1) * step = i * step + step := by ring
    exact ⟨⟨i, rfl⟩, by omega⟩
  · rintro ⟨⟨i, rfl⟩, hlt⟩
    refine ⟨i, ?_, rfl⟩
    have : i + 1 ≤ (stop + step - 1) / step := by
      rw [Nat.le_div_iff_mul_le hstep]
      have h2 : (i + 1) * step = i * step + step := by ring
      omega
    omega

/-- The embedded `np.argmax` stays within the list. -/
theorem argmaxIdx_lt_length : ∀ {l : List ℕ}, l ≠ [] → argmaxIdx l < l.length := by
  intro l
  induction l with
  | nil => intro h; exact absurd rfl h
  | cons x xs ih =>
    intro _
    simp only [argmaxIdx]
    split
    · rename_i hgt
      have hxs : xs ≠ [] := by
        rintro rfl
        simp [List.getD] at hgt
      simpa using Nat.succ_lt_succ (ih hxs)
    · simp

/-- The embedded `np.argmax` indexes a maximal element. -/
theorem argmaxIdx_is_max : ∀ (l : List ℕ) (i : ℕ), i < l.length →
    l.getD i 0 ≤ l.getD (argmaxIdx l) 0 := by
  intro l
  induction l with
  | nil => intro i hi; simp at hi
  | cons x xs ih =>
    intro i hi
    simp only [argmaxIdx]
    split
    · rename_i hgt
      cases i with
      | zero => simpa [List.getD_cons_succ] using le_of_lt hgt
      | succ k =>
        rw [List.getD_cons_succ, List.getD_cons_succ]
        exact ih k (by simpa using hi)
    · rename_i hle
      cases i with
      | zero => simp
      | succ k =>
        rw [List.getD_cons_succ, List.getD_cons_zero]
        exact le_trans (ih k (by simpa using hi)) (not_lt.mp hle)

/-- Every entry strictly before the embedded `np.argmax` is strictly smaller:
numpy's argmax returns the first maximal index. -/
theorem argmaxIdx_first : ∀ (l : List ℕ) (i : ℕ), i < argmaxIdx l →
    l.getD i 0 < l.getD (argmaxIdx l) 0 := by
  intro l
  induction l with
  | nil => intro i hi; simp [argmaxIdx] at hi
  | cons x xs ih =>
    intro i hi
    simp only [argmaxIdx] at hi ⊢
    split
    · rename_i hgt
      cases i with
      | zero => simpa [List.getD_cons_succ] using hgt
      | succ k =>
        rw [List.getD_cons_succ, List.getD_cons_succ]
        rw [if_pos hgt] at hi
        exact ih k (by omega)
    · rename_i hle
      rw [if_neg hle] at hi
      omega

/-- Every label of the window occurs among the unique values of `np.unique`. -/
theorem mem_np_unique_vals {labs : List String} {l : String} (hl : l ∈ labs) :
    l ∈ (np_unique labs).1 :=
  List.mem_dedup.mpr ((List.perm_insertionSort _ labs).mem_iff.mpr hl)

/-- The unique values returned by the embedded `np.unique` are sorted
ascending, as numpy guarantees. -/
theorem np_unique_vals_sorted (labs : List String) :
    (np_unique labs).1.Sorted (fun a b => a ≤ b) :=
  List.Pairwise.sublist (List.dedup_sublist _) (List.sorted_insertionSort _ labs)

/-- Occurrence counts are invariant under permutation of the label window. -/
theorem countLbl_perm {labs labs' : List String} (h : labs.Perm labs') (v : String) :
    countLbl v labs = countLbl v labs' :=
  (h.filter _).length_eq

/-- The counts list of `np_unique` is as long as its values list. -/
theorem np_unique_len (labs : List String) :
    (np_unique labs).2.length = (np_unique labs).1.length := by
  show ((np_unique labs).1.map (fun v => countLbl v labs)).length = _
  rw [List.length_map]

/-- The `j`-th count of `np_unique` is the occurrence count of its `j`-th
unique value. -/
theorem np_unique_cnt_getD (labs : List String) {j : ℕ}
    (hj : j < (np_unique labs).1.length) :
    (np_unique labs).2.getD j 0 = countLbl ((np_unique labs).1.getD j "") labs := by
  show ((np_unique labs).1.map (fun v => countLbl v labs)).getD j 0 = _
  rw [List.getD_eq_getElem _ _ (by simpa using hj), List.getElem_map,
    List.getD_eq_getElem _ _ hj]

/-- Unfolding of `majority_label` as an indexed access. -/
theorem majority_label_getD (labs : List String) :
    majority_label labs = (np_unique labs).1.getD (argmaxIdx (np_unique labs).2) "" := rfl

/-- The label assigned by the embedded majority vote occurs at least as often
in the window as any label the window covers (it is a mode). -/
theorem majority_label_count_ge (labs : List String) (l : String) (hl : l ∈ labs) :
    countLbl l labs ≤ countLbl (majority_label labs) labs := by
  obtain ⟨j, hjlen, hjval⟩ := List.mem_iff_getElem.mp (mem_np_unique_vals hl)
  have hlen := np_unique_len labs
  have hne : (np_unique labs).2 ≠ [] := List.ne_nil_of_length_pos (by omega)
  have hidx : argmaxIdx (np_unique labs).2 < (np_unique labs).2.length :=
    argmaxIdx_lt_length hne
  have hcnt_idx := np_unique_cnt_getD labs (show argmaxIdx (np_unique labs).2 <
    (np_unique labs).1.length by omega)
  have hcnt_j := np_unique_cnt_getD labs hjlen
  rw [List.getD_eq_getElem _ _ hjlen, hjval] at hcnt_j
  rw [majority_label_getD, ← hcnt_idx, ← hcnt_j]
  exact argmaxIdx_is_max _ j (by omega)

/-- Among the labels tied for the maximal count, the embedded majority vote
returns the lexicographically least one. -/
theorem majority_label_le_tied (labs : List String) (l : String) (hl : l ∈ labs)
    (hc : countLbl l labs = countLbl (majority_label labs) labs) :
    majority_label labs ≤ l := by
  obtain ⟨j, hjlen, hjval⟩ := List.mem_iff_getElem.mp (mem_np_unique_vals hl)
  have hlen := np_unique_len labs
  have hne : (np_unique labs).2 ≠ [] := List.ne_nil_of_length_pos (by omega)
  have hidx : argmaxIdx (np_unique labs).2 < (np_unique labs).2.length :=
    argmaxIdx_lt_length hne
  have hcnt_idx := np_unique_cnt_getD labs (show argmaxIdx (np_unique labs).2 <
    (np_unique labs).1.length by omega)
  have hcnt_j := np_unique_cnt_getD labs hjlen
  rw [List.getD_eq_getElem _ _ hjlen, hjval] at hcnt_j
  have hje : (np_unique labs).2.getD j 0
      = (np_unique labs).2.getD (argmaxIdx (np_unique labs).2) 0 := by
    rw [hcnt_j, hcnt_idx, ← majority_label_getD, hc]
  have hnotlt : ¬ j < argmaxIdx (np_unique labs).2 := fun hlt =>
    absurd hje (ne_of_lt (argmaxIdx_first _ j hlt))
  rcases Nat.lt_or_ge (argmaxIdx (np_unique labs).2) j with hlt | hge
  · have hrel := List.Sorted.rel_get_of_lt (np_unique_vals_sorted labs)
      (show (⟨argmaxIdx (np_unique labs).2, by omega⟩ : Fin (np_unique labs).1.length)
        < ⟨j, hjlen⟩ from by simpa using hlt)
    rw [List.get_eq_getElem, List.get_eq_getElem] at hrel
    rw [majority_label_getD, List.getD_eq_getElem _ _ (by omega), ← hjval]
    exact hrel
  · have hj_eq : j = argmaxIdx (np_unique labs).2 := by omega
    subst hj_eq
    rw [majority_label_getD, List.getD_eq_getElem _ _ (by omega), ← hjval]

/-- The embedded majority vote is independent of the arrangement of the labels
inside the window. -/
theorem majority_label_perm {labs labs' : List String} (h : labs.Perm labs') :
    majority_label labs = majority_label labs' := by
  have hsort : List.insertionSort (fun a b => a ≤ b) labs
      = List.insertionSort (fun a b => a ≤ b) labs' :=
    List.eq_of_perm_of_sorted
      ((List.perm_insertionSort _ labs).trans
        (h.trans (List.perm_insertionSort _ labs').symm))
      (List.sorted_insertionSort _ labs) (List.sorted_insertionSort _ labs')
  have hvals : (np_unique labs).1 = (np_unique labs').1 := by
    show (List.insertionSort _ labs).dedup = (List.insertionSort _ labs').dedup
    rw [hsort]
  have hcnts : (np_unique labs).2 = (np_unique labs').2 := by
    show (np_unique labs).1.map (fun v => countLbl v labs)
        = (np_unique labs').1.map (fun v => countLbl v labs')
    rw [hvals]
    exact List.map_congr_left (fun v _ => countLbl_perm h v)
  rw [majority_label_getD, majority_label_getD, hvals, hcnts]

/-! ## Claim theorems -/

/-- C1: for every window segment, the 20-element feature vector computed by the
per-window body of the batch `extract_features` loop is identical, value for
value, to the vector computed by the single-window inference path
`extract_single_window`; consequently the batch `X` output is exactly the map
of `extract_single_window` over the window slices. -/
theorem C1_feature_paths_agree :
    (∀ seg : List Sample, extract_features_feats seg = extract_single_window seg)
    ∧ ∀ (A : List Sample) (L : List String) (fs win_sec overlap : ℚ),
      (extract_features A L fs win_sec overlap).1 =
        (window_indices A.length (batch_win fs win_sec).toNat
          (batch_step (batch_win fs win_sec) overlap).toNat).map
            (fun p => extract_single_window (pySlice A p.1 p.2)) :=
  ⟨fun _ => rfl, fun _ _ _ _ _ => rfl⟩

/-- C2: for every non-empty window, `extract_single_window` returns a vector of
length exactly 20; in the exact-arithmetic embedding every element is a finite
rational, so no NaN or ±Infinity occurs (the `nan_to_num` guard is the
identity). -/
theorem C2_feature_vector_length (seg : List Sample) (h : 1 ≤ seg.length) :
    (extract_single_window seg).length = 20 := by
  simp [extract_single_window, nan_to_num, axisStats]

/-- Witness for C2 at the one-row window of zeros. -/
theorem C2_feature_vector_length_witness :
    1 ≤ ([((0 : ℚ), (0 : ℚ), (0 : ℚ))] : List Sample).length ∧
      (extract_single_window [((0 : ℚ), (0 : ℚ), (0 : ℚ))]).length = 20 :=
  ⟨by decide, C2_feature_vector_length [((0 : ℚ), (0 : ℚ), (0 : ℚ))] (by decide)⟩

/-- C3: for positive `win` and `step`, `window_indices n win step` yields
exactly the pairs `(s, s + win)` with `s` a multiple of `step` and
`s + win ≤ n` (each a half-open range of width `win` ending by `n`), is empty
when `n < win`, and on `(23, 10, 5)` yields `[(0,10), (5,15), (10,20)]`. -/
theorem C3_window_indices_spec (n win step : ℕ) (hwin : 0 < win) (hstep : 0 < step) :
    (∀ s e, (s, e) ∈ window_indices n win step ↔
      ((∃ i, s = i * step) ∧ e = s + win ∧ s + win ≤ n))
    ∧ (n < win → window_indices n win step = [])
    ∧ window_indices 23 10 5 = [(0, 10), (5, 15), (10, 20)] := by
  refine ⟨?_, ?_, by decide⟩
  · intro s e
    simp only [window_indices, List.mem_map]
    constructor
    · rintro ⟨s', hs', h⟩
      simp only [Prod.mk.injEq] at h
      obtain ⟨rfl, rfl⟩ := h
      rw [mem_pyRangeUp hstep] at hs'
      exact ⟨hs'.1, rfl, by omega⟩
    · rintro ⟨hi, rfl, hle⟩
      refine ⟨s, ?_, rfl⟩
      rw [mem_pyRangeUp hstep]
      exact ⟨hi, by omega⟩
  · intro hn
    have h0 : n + 1 - win = 0 := by omega
    simp [window_indices, pyRangeUp, h0, Nat.div_eq_of_lt (by omega : step - 1 < step)]

/-- Witness for C3 at `n = 23`, `win = 10`, `step = 5`. -/
theorem C3_window_indices_spec_witness :
    window_indices 23 10 5 = [(0, 10), (5, 15), (10, 20)] :=
  (C3_window_indices_spec 23 10 5 (by decide) (by decide)).2.2

/-- C4 counterexample: on the window of 100 samples `(0, 0, 1)` the calibrator
does not return z-values near 9.81: after the g-to-m/s² conversion the window
is perfectly flat, so the flatness boost of the Expo branch multiplies it by
the clamped factor 3, giving z-values 29.43, which differ from 9.81 by 19.62 —
far outside any floating tolerance. -/
theorem C4_calibration_counterexample :
    (calibrate_to_wisdm (List.replicate 100 ((0 : ℚ), (0 : ℚ), (1 : ℚ)))).map
        (fun s => s.2.2) = List.replicate 100 ((2943 : ℚ) / 100)
    ∧ ¬ |(2943 : ℚ) / 100 - 981 / 100| < 1 :=
  ⟨by with_unfolding_all rfl, by with_unfolding_all decide⟩

/-- C4 (amended): for the window of 100 samples `(0, 0, 1)` the calibrator
returns 100 samples `(0, 0, 29.43)` — the g-to-m/s² conversion times the
flat-window amplitude boost clamped at 3 — so x and y are exactly 0, and the
feature vector of the calibrated window has z-mean feature 29.43 and z-std
feature 0. -/
theorem C4_calibration_amended :
    calibrate_to_wisdm (List.replicate 100 ((0 : ℚ), (0 : ℚ), (1 : ℚ)))
      = List.replicate 100 ((0 : ℚ), (0 : ℚ), (2943 : ℚ) / 100)
    ∧ extract_single_window (List.replicate 100 ((0 : ℚ), (0 : ℚ), (2943 : ℚ) / 100))
      = [0, 0, 0, 0, 0, 0, 0, 0, 0, 0, 0, 0,
          2943 / 100, 0, 2943 / 100, 2943 / 100, 2943 / 100, 0, 2943 / 100, 0] :=
  ⟨by with_unfolding_all rfl, by with_unfolding_all rfl⟩

/-- C5 counterexample: the window of 100 samples `(0, 0, 9.81)` is not returned
unchanged: although its z-mean 9.81 lies in `[7, 12]`, its magnitude vector is
constant, so the low-motion amplitude floor of the WISDM branch fires and
scales the window. -/
theorem C5_calibration_counterexample :
    calibrate_to_wisdm (List.replicate 100 ((0 : ℚ), (0 : ℚ), (981 : ℚ) / 100))
      ≠ List.replicate 100 ((0 : ℚ), (0 : ℚ), (981 : ℚ) / 100) := by
  with_unfolding_all decide

/-- C5 (amended): for the window of 100 samples `(0, 0, 9.81)` the calibrator
takes the already-calibrated branch (z-mean 9.81 lies in `[7, 12]`) but, the
magnitude standard deviation being 0 < 0.25, applies the amplitude floor with
the clamped scale 2 and returns the window with every value doubled
(z-values 19.62). -/
theorem C5_calibration_amended :
    calibrate_to_wisdm (List.replicate 100 ((0 : ℚ), (0 : ℚ), (981 : ℚ) / 100))
      = List.replicate 100 ((0 : ℚ), (0 : ℚ), (981 : ℚ) / 50) := by
  with_unfolding_all rfl

/-- C6: every window whose z-axis mean lies in `[7, 12]` and whose magnitude
standard deviation is at least 0.25 is returned unchanged by the calibrator. -/
theorem C6_calibration_idempotent (seg : List Sample)
    (h7 : 7 ≤ npMean (colAxis 2 seg)) (h12 : npMean (colAxis 2 seg) ≤ 12)
    (hstd : 1 / 4 ≤ npStd (mags seg)) :
    calibrate_to_wisdm seg = seg := by
  simp only [calibrate_to_wisdm]
  rw [if_pos (Or.inl ⟨h7, h12⟩), if_neg (not_lt.mpr hstd)]

/-- Witness for C6 at the two-row window `(0,0,9), (0,0,10)` whose z-mean is
9.5 and whose magnitude std is exactly 1/2. -/
theorem C6_calibration_idempotent_witness :
    (7 ≤ npMean (colAxis 2 [((0 : ℚ), (0 : ℚ), (9 : ℚ)), (0, 0, 10)])
      ∧ npMean (colAxis 2 [((0 : ℚ), (0 : ℚ), (9 : ℚ)), (0, 0, 10)]) ≤ 12
      ∧ 1 / 4 ≤ npStd (mags [((0 : ℚ), (0 : ℚ), (9 : ℚ)), (0, 0, 10)]))
    ∧ calibrate_to_wisdm [((0 : ℚ), (0 : ℚ), (9 : ℚ)), (0, 0, 10)]
      = [((0 : ℚ), (0 : ℚ), (9 : ℚ)), (0, 0, 10)] :=
  ⟨⟨by with_unfolding_all decide, by with_unfolding_all decide,
      by with_unfolding_all decide⟩,
    C6_calibration_idempotent _ (by with_unfolding_all decide)
      (by with_unfolding_all decide) (by with_unfolding_all decide)⟩

/-- C7: the batch pipeline assigns each window a label occurring at least as
often as any label the window covers (a majority/mode label), and on the
batch scenario whose three windows cover the labels `["A","A","B"]`,
`["B","B","B"]`, `["A","B","B"]` it assigns `["A", "B", "B"]`. -/
theorem C7_majority_labels :
    (∀ labs : List String, ∀ l ∈ labs,
      countLbl l labs ≤ countLbl (majority_label labs) labs)
    ∧ (extract_features (List.replicate 9 ((0 : ℚ), (0 : ℚ), (0 : ℚ)))
        ["A", "A", "B", "B", "B", "B", "A", "B", "B"] 3 1 0).2 = ["A", "B", "B"] :=
  ⟨fun labs l hl => majority_label_count_ge labs l hl, by with_unfolding_all rfl⟩

/-- Witness for C7's universally quantified part at the window
`["A","A","B"]` and the covered label `"B"`. -/
theorem C7_majority_labels_witness :
    countLbl "B" ["A", "A", "B"]
      ≤ countLbl (majority_label ["A", "A", "B"]) ["A", "A", "B"] :=
  C7_majority_labels.1 ["A", "A", "B"] "B" (by with_unfolding_all decide)

/-- C8 counterexample: with `fs = 2` and `win_sec = 2.8` the source computes
`win = int(win_sec * fs) = 5`, whereas rounding `fs * win_sec = 5.6` to the
nearest integer gives 6; the claimed `round` computation is therefore false of
the code. -/
theorem C8_rounding_counterexample :
    batch_win 2 (14 / 5) = 5 ∧ spec_win 2 (14 / 5) = 6 ∧
      batch_win 2 (14 / 5) ≠ spec_win 2 (14 / 5) := by
  refine ⟨?_, ?_, ?_⟩ <;> with_unfolding_all decide

/-- C8 (amended): the batch pipeline computes `win = int(win_sec * fs)` and
`step = int(win * (1 - overlap))` with Python's `int`, i.e. truncation toward
zero, which on the nonnegative products equals the floor — not rounding to the
nearest integer. -/
theorem C8_rounding_amended (fs win_sec overlap : ℚ) (win : ℤ)
    (h1 : 0 ≤ win_sec * fs) (h2 : 0 ≤ (win : ℚ) * (1 - overlap)) :
    batch_win fs win_sec = ⌊win_sec * fs⌋ ∧
      batch_step win overlap = ⌊(win : ℚ) * (1 - overlap)⌋ :=
  ⟨pyInt_eq_floor _ h1, pyInt_eq_floor _ h2⟩

/-- Witness for C8 (amended) at `fs = 2`, `win_sec = 2.8`, `overlap = 0.5`,
`win = 5`. -/
theorem C8_rounding_amended_witness :
    (0 ≤ (14 / 5 : ℚ) * 2 ∧ 0 ≤ ((5 : ℤ) : ℚ) * (1 - 1 / 2))
    ∧ batch_win 2 (14 / 5) = ⌊(14 / 5 : ℚ) * 2⌋
    ∧ batch_step 5 (1 / 2) = ⌊((5 : ℤ) : ℚ) * (1 - 1 / 2)⌋ :=
  ⟨⟨by with_unfolding_all decide, by with_unfolding_all decide⟩,
    C8_rounding_amended 2 (14 / 5) (1 / 2) 5 (by with_unfolding_all decide)
      (by with_unfolding_all decide)⟩

/-- C9: for a positive window length, the predict endpoint fails with the
client input error carrying the actual and required sample counts exactly when
the request holds fewer than `WIN` samples; with at least `WIN` samples it
calibrates and feature-extracts precisely the most recent `WIN` samples (a
suffix of the request of length `WIN`). -/
theorem C9_predict_validation (WIN : ℕ) (samples : List Sample) (hw : 0 < WIN) :
    (predict WIN samples = .error (samples.length, WIN) ↔ samples.length < WIN)
    ∧ (WIN ≤ samples.length →
        predict WIN samples =
          .ok (extract_single_window (calibrate_to_wisdm
            (samples.drop (samples.length - WIN))))
        ∧ (samples.drop (samples.length - WIN)).length = WIN
        ∧ (samples.drop (samples.length - WIN)).IsSuffix samples) := by
  constructor
  · constructor
    · intro h
      by_contra hn
      simp [predict, if_neg hn] at h
    · intro h
      simp [predict, if_pos h]
  · intro h
    refine ⟨?_, ?_, List.drop_suffix _ _⟩
    · simp [predict, if_neg (not_lt.mpr h), pyLastN, hw.ne']
    · simp [List.length_drop]
      omega

/-- Witness for C9 at `WIN = 1` and a two-sample request. -/
theorem C9_predict_validation_witness :
    (predict 1 [((0 : ℚ), (0 : ℚ), (0 : ℚ)), (0, 0, 1)]
        = .error ([((0 : ℚ), (0 : ℚ), (0 : ℚ)), (0, 0, 1)].length, 1)
      ↔ [((0 : ℚ), (0 : ℚ), (0 : ℚ)), (0, 0, 1)].length < 1)
    ∧ (1 ≤ [((0 : ℚ), (0 : ℚ), (0 : ℚ)), (0, 0, 1)].length →
        predict 1 [((0 : ℚ), (0 : ℚ), (0 : ℚ)), (0, 0, 1)] =
          .ok (extract_single_window (calibrate_to_wisdm
            ([((0 : ℚ), (0 : ℚ), (0 : ℚ)), (0, 0, 1)].drop
              ([((0 : ℚ), (0 : ℚ), (0 : ℚ)), (0, 0, 1)].length - 1))))
        ∧ ([((0 : ℚ), (0 : ℚ), (0 : ℚ)), (0, 0, 1)].drop
            ([((0 : ℚ), (0 : ℚ), (0 : ℚ)), (0, 0, 1)].length - 1)).length = 1
        ∧ ([((0 : ℚ), (0 : ℚ), (0 : ℚ)), (0, 0, 1)].drop
            ([((0 : ℚ), (0 : ℚ), (0 : ℚ)), (0, 0, 1)].length - 1)).IsSuffix
              [((0 : ℚ), (0 : ℚ), (0 : ℚ)), (0, 0, 1)]) :=
  C9_predict_validation 1 [((0 : ℚ), (0 : ℚ), (0 : ℚ)), (0, 0, 1)] (by decide)

/-- C10: on ties the batch pipeline's majority vote returns the
lexicographically smallest of the tied labels — `np.unique` produces the
candidate labels in sorted order and `argmax` selects the first maximal
count — and the result is deterministic and independent of the arrangement of
the labels inside the window. -/
theorem C10_tie_break :
    (∀ labs : List String, ∀ l ∈ labs,
      countLbl l labs = countLbl (majority_label labs) labs →
        majority_label labs ≤ l)
    ∧ (∀ labs : List String, (np_unique labs).1.Sorted (fun a b => a ≤ b))
    ∧ (∀ labs labs' : List String, labs.Perm labs' →
        majority_label labs = majority_label labs') :=
  ⟨fun labs l hl hc => majority_label_le_tied labs l hl hc,
    np_unique_vals_sorted,
    fun _ _ h => majority_label_perm h⟩

/-- Witness for C10 at the tied window `["B", "A"]` with covered label `"B"`:
the vote returns `"A"`, the lexicographically smaller tied label. -/
theorem C10_tie_break_witness :
    majority_label ["B", "A"] ≤ "B" :=
  C10_tie_break.1 ["B", "A"] "B" (by with_unfolding_all decide)
    (by with_unfolding_all decide)
